import Mathlib

/-!
Verification of `pkg_blender/blendtorch/btb/offscreen.py` (class `OffScreenRenderer`).

Shallow embedding conventions:
* A pixel is a list of channel values (natural numbers; the numpy buffer holds
  `uint8` values), a row is a list of pixels, a buffer is a list of rows.
* Floating point arithmetic of the source (`float32` in `_color_correct`) is
  modelled by exact real arithmetic; `x ** y` is `Real.rpow`.
* `np.uint8(x)` on a nonnegative float truncates the fractional part and keeps
  the low byte of the result; it is modelled as `⌊x⌋₊ % 256`.
* External GPU/Blender API calls (`GPUOffScreen`, `draw_view3d`, `bgl`,
  `glGetTexImage`) are not pure data transformations; they are modelled by
  their observable footprint: the offscreen target size, the byte buffer the
  readback fills (passed to `renderImage` as the `captured` argument), and an
  event trace `renderTrace` recording the order of the calls inside `render`.
-/

abbrev Pixel := List ℕ
abbrev Row := List Pixel
abbrev Buffer := List Row

/-- Model of `np.uint8(x)` for a nonnegative float `x`: truncate toward zero
and keep the low byte. -/
noncomputable def uint8cast (x : ℝ) : ℕ := ⌊x⌋₊ % 256

/-- Per-channel gamma correction performed by `_color_correct` (source lines
107–108): `np.uint8(255.0 * ((v.astype(np.float32) / 255)) ** (1 / coeff))`. -/
noncomputable def colorCorrectChannel (g : ℝ) (v : ℕ) : ℕ :=
  uint8cast (255 * (((v : ℝ)) / 255) ^ (1 / g))

/-- `OffScreenRenderer._color_correct` acting on one pixel (source lines
105–112): the first three channels are gamma corrected; when the pixel has 4
channels the fourth (`buffer[...,3:4]`) is concatenated back unchanged. -/
noncomputable def color_correct (g : ℝ) (p : Pixel) : Pixel :=
  let rgb := (p.take 3).map (colorCorrectChannel g)
  if p.length = 4 then rgb ++ p.drop 3 else rgb

/-- `_color_correct` acting on a whole H×W×D buffer: the numpy expressions are
elementwise over the leading axes, i.e. a map over rows and pixels. -/
noncomputable def color_correct_buffer (g : ℝ) (b : Buffer) : Buffer :=
  b.map (fun row => row.map (color_correct g))

/-- `np.flipud`: reverse the order of the rows (axis 0). -/
def flipud (b : Buffer) : Buffer := b.reverse

/-- State of an `OffScreenRenderer` established by `__init__`.  The fields
`camera`, `area`, `space`, `region` and `handle` hold external Blender handles
with no pure content; the camera is represented by its resolution `shape`
(`(H, W)`), from which `__init__` derives everything it allocates. -/
structure OffScreenRenderer where
  shape : ℕ × ℕ
  offscreenSize : ℕ × ℕ
  origin : String
  gamma_coeff : Option ℝ
  channels : ℕ
  buffer : Buffer

/-- `OffScreenRenderer.__init__` (source lines 45–62).  The two `assert`
statements are modelled by returning `none`; on success the state records the
`GPUOffScreen(shape[1], shape[0])` size, the options, and the zero-initialised
`(H, W, channels)` uint8 buffer. -/
def OffScreenRenderer.init (cameraShape : ℕ × ℕ) (mode : String) (origin : String)
    (gamma_coeff : Option ℝ) : Option OffScreenRenderer :=
  if mode ∈ ["rgba", "rgb"] then
    if origin ∈ ["upper-left", "lower-left"] then
      let channels := if mode = "rgba" then 4 else 3
      some {
        shape := cameraShape
        offscreenSize := (cameraShape.2, cameraShape.1)
        origin := origin
        gamma_coeff := gamma_coeff
        channels := channels
        buffer := List.replicate cameraShape.1
          (List.replicate cameraShape.2 (List.replicate channels 0))
      }
    else none
  else none

/-- Python truthiness of `self.gamma_coeff` in `if self.gamma_coeff:`
(source line 97): `None` and `0.0` are falsy, every other float is truthy. -/
def gammaTruthy : Option ℝ → Prop
  | none => False
  | some g => g ≠ 0

/-- Source line 95–96: `if self.origin == 'upper-left': buffer = np.flipud(buffer)`. -/
def flipStage (r : OffScreenRenderer) (buffer : Buffer) : Buffer :=
  if r.origin = "upper-left" then flipud buffer else buffer

/-- Source line 97–98: `if self.gamma_coeff: buffer = self._color_correct(buffer, self.gamma_coeff)`. -/
noncomputable def gammaStage (r : OffScreenRenderer) (buffer : Buffer) : Buffer :=
  match r.gamma_coeff with
  | none => buffer
  | some g => if g = 0 then buffer else color_correct_buffer g buffer

/-- The pure image transformation of `render` (source lines 94–99), as a
function of the bytes `captured` that `glGetTexImage` wrote into
`self.buffer`: first the optional vertical flip, then the optional gamma
correction, then return the buffer. -/
noncomputable def renderImage (r : OffScreenRenderer) (captured : Buffer) : Buffer :=
  let buffer := captured
  let buffer := flipStage r buffer
  let buffer := gammaStage r buffer
  buffer

/-- The observable steps `render` performs, in source order. -/
inductive RenderStep where
  | bindOn
  | drawView3d
  | glActiveTexture
  | glBindTexture
  | glGetTexImage
  | bindOff
  | flip
  | gamma
  deriving DecidableEq

open Classical in
/-- Event trace of one `render()` call (source lines 76–98): inside the
`with self.offscreen.bind()` block one `draw_view3d` call, the texture
selection calls, and one `glGetTexImage` readback; after the block the
conditional flip and the conditional gamma correction. -/
noncomputable def renderTrace (r : OffScreenRenderer) : List RenderStep :=
  [RenderStep.bindOn, RenderStep.drawView3d, RenderStep.glActiveTexture,
    RenderStep.glBindTexture, RenderStep.glGetTexImage, RenderStep.bindOff]
    ++ (if r.origin = "upper-left" then [RenderStep.flip] else [])
    ++ (if gammaTruthy r.gamma_coeff then [RenderStep.gamma] else [])

/-- A buffer has numpy shape `(H, W, D)`. -/
def bufferShape (H W D : ℕ) (b : Buffer) : Prop :=
  b.length = H ∧ ∀ row ∈ b, row.length = W ∧ ∀ p ∈ row, p.length = D

/-! ## Allocation model of `_color_correct`

To reason about (the absence of) mutation, `_color_correct` is additionally
modelled against a heap of numpy arrays.  A heap cell holds a real-valued
H×W×D array (covering both the uint8 input and the intermediate float32
arrays).  Every numpy expression in the body — the `astype` copy, `/ 255`,
`** (1/coeff)`, `255.0 * ·`, `np.uint8(·)` and `np.concatenate` — produces a
new array, which the model renders as an allocation of a fresh cell; the
source contains no in-place assignment to an existing array. -/

abbrev RArr := List (List (List ℝ))

structure Heap where
  cells : List RArr

/-- Read the array at address `a` (addresses are allocation indices). -/
def Heap.read (h : Heap) (a : ℕ) : RArr := h.cells.getD a []

/-- Allocate a fresh cell holding `x`; returns the new heap and the address. -/
def Heap.alloc (h : Heap) (x : RArr) : Heap × ℕ :=
  (⟨h.cells ++ [x]⟩, h.cells.length)

/-- `buffer[..., :3].astype(np.float32)`: copy of the first three channels. -/
def slice3 (a : RArr) : RArr := a.map (fun row => row.map (fun p => p.take 3))

/-- `· / 255` elementwise. -/
noncomputable def divEach (a : RArr) : RArr :=
  a.map (fun row => row.map (fun p => p.map (fun v => v / 255)))

/-- `· ** (1 / coeff)` elementwise. -/
noncomputable def powEach (g : ℝ) (a : RArr) : RArr :=
  a.map (fun row => row.map (fun p => p.map (fun v => v ^ (1 / g))))

/-- `255.0 * ·` elementwise. -/
noncomputable def mulEach (a : RArr) : RArr :=
  a.map (fun row => row.map (fun p => p.map (fun v => 255 * v)))

/-- `np.uint8(·)` elementwise. -/
noncomputable def uint8Each (a : RArr) : RArr :=
  a.map (fun row => row.map (fun p => p.map (fun v => ((uint8cast v : ℕ) : ℝ))))

/-- `buffer[..., 3:4]`: copy of the channels past the third. -/
def alphaSlice (a : RArr) : RArr := a.map (fun row => row.map (fun p => p.drop 3))

/-- `np.concatenate((x, y), axis=-1)`. -/
def concatLast (x y : RArr) : RArr :=
  x.zipWith (fun rx ry => rx.zipWith (fun px py => px ++ py) ry) y

/-- `buffer.shape[-1]` of a (uniformly shaped) array. -/
def lastDim (a : RArr) : ℕ := ((a.headD []).headD []).length

/-- `_color_correct` over the heap: read the argument array at address `a`,
perform the body's numpy expressions as fresh allocations, and return the
final heap with the address of the returned array. -/
noncomputable def color_correct_heap (h : Heap) (a : ℕ) (g : ℝ) : Heap × ℕ :=
  let buf := h.read a
  let p1 := h.alloc (slice3 buf)
  let p2 := p1.1.alloc (divEach (p1.1.read p1.2))
  let p3 := p2.1.alloc (powEach g (p2.1.read p2.2))
  let p4 := p3.1.alloc (mulEach (p3.1.read p3.2))
  let p5 := p4.1.alloc (uint8Each (p4.1.read p4.2))
  if lastDim buf = 4 then
    p5.1.alloc (concatLast (p5.1.read p5.2) (alphaSlice buf))
  else p5

/-! ## Helper lemmas -/

theorem getD_take_map (f : ℕ → ℕ) (p : List ℕ) (i : ℕ) (hip : i < p.length)
    (hi3 : i < 3) : ((p.take 3).map f).getD i 0 = f (p.getD i 0) := by
  have hm : i < ((p.take 3).map f).length := by
    simp only [List.length_map, List.length_take]
    omega
  rw [List.getD_eq_getElem _ _ hm, List.getD_eq_getElem _ _ hip]
  simp

theorem rgb_part_length (g : ℝ) (p : Pixel) :
    ((p.take 3).map (colorCorrectChannel g)).length = min 3 p.length := by
  simp [List.length_take]

/-- Alpha preservation at the pixel level. -/
theorem color_correct_alpha (g : ℝ) (p : Pixel) (hp : p.length = 4) :
    (color_correct g p).getD 3 0 = p.getD 3 0 := by
  simp only [color_correct, if_pos hp]
  have hlen : ((p.take 3).map (colorCorrectChannel g)).length = 3 := by
    simp [rgb_part_length, hp]
  rw [List.getD_append_right _ _ _ _ (by omega), hlen]
  have h0 : (0 : ℕ) < (p.drop 3).length := by simp [hp]
  rw [List.getD_eq_getElem _ _ h0, List.getD_eq_getElem _ _ (by omega : 3 < p.length)]
  simp

theorem getD_map_row (f : Row → Row) (b : List Row) (i : ℕ) (hi : i < b.length) :
    (b.map f).getD i [] = f (b.getD i []) := by
  have hm : i < (b.map f).length := by simpa using hi
  rw [List.getD_eq_getElem _ _ hm, List.getD_eq_getElem _ _ hi]
  simp

theorem getD_map_pix (f : Pixel → Pixel) (row : List Pixel) (j : ℕ)
    (hj : j < row.length) :
    (row.map f).getD j [] = f (row.getD j []) := by
  have hm : j < (row.map f).length := by simpa using hj
  rw [List.getD_eq_getElem _ _ hm, List.getD_eq_getElem _ _ hj]
  simp

/-! ## Claims -/

/-- C3: the vertical flip of `render` (`np.flipud`, mapping row `i` of an
`H`-row buffer to row `H-1-i`) is self-inverse: flipping twice returns the
original buffer. -/
theorem C3_flip_self_inverse (b : Buffer) :
    flipud (flipud b) = b ∧
    ∀ i, i < b.length → (flipud b).getD i [] = b.getD (b.length - 1 - i) [] := by
  refine ⟨by simp [flipud], ?_⟩
  intro i hi
  have h1 : i < (flipud b).length := by simpa [flipud] using hi
  have h2 : b.length - 1 - i < b.length := by omega
  rw [List.getD_eq_getElem _ _ h1, List.getD_eq_getElem _ _ h2]
  simp [flipud]

theorem C3_flip_self_inverse_witness :
    flipud (flipud [[[1]], [[2]], [[3]]]) = [[[1]], [[2]], [[3]]] ∧
    ∀ i, i < ([[[1]], [[2]], [[3]]] : Buffer).length →
      (flipud [[[1]], [[2]], [[3]]]).getD i []
        = ([[[1]], [[2]], [[3]]] : Buffer).getD (([[[1]], [[2]], [[3]]] : Buffer).length - 1 - i) [] :=
  C3_flip_self_inverse [[[1]], [[2]], [[3]]]

/-- C4: `__init__` completes exactly when `mode ∈ {rgba, rgb}` and
`origin ∈ {upper-left, lower-left}`; every other value of either option
trips the corresponding `assert`. -/
theorem C4_init_validation (shape : ℕ × ℕ) (mode origin : String) (g : Option ℝ) :
    (OffScreenRenderer.init shape mode origin g).isSome ↔
      ((mode = "rgba" ∨ mode = "rgb") ∧
        (origin = "upper-left" ∨ origin = "lower-left")) := by
  unfold OffScreenRenderer.init
  split_ifs with h1 h2 <;> simp_all

theorem C4_init_validation_witness :
    ((OffScreenRenderer.init (2, 1) "rgb" "lower-left" none).isSome ↔
      ((("rgb" : String) = "rgba" ∨ ("rgb" : String) = "rgb") ∧
        (("lower-left" : String) = "upper-left" ∨
          ("lower-left" : String) = "lower-left"))) :=
  C4_init_validation (2, 1) "rgb" "lower-left" none

/-- C1: `_color_correct` maps each of the first three (RGB) channel values
`v` to the uint8 cast of `255 * (v/255) ** (1/g)`. -/
theorem C1_color_correct_formula (g : ℝ) (p : Pixel)
    (hp : p.length = 3 ∨ p.length = 4) (i : ℕ) (hi : i < 3) :
    (color_correct g p).getD i 0
      = uint8cast (255 * ((p.getD i 0 : ℝ) / 255) ^ (1 / g)) := by
  have hip : i < p.length := by omega
  have hm : i < ((p.take 3).map (colorCorrectChannel g)).length := by
    rw [rgb_part_length]; omega
  rcases eq_or_ne p.length 4 with h4 | h4
  · simp only [color_correct, if_pos h4]
    rw [List.getD_append _ _ _ _ hm, getD_take_map _ _ _ hip hi]
    rfl
  · simp only [color_correct, if_neg h4]
    rw [getD_take_map _ _ _ hip hi]
    rfl

theorem C1_color_correct_formula_witness :
    (([7, 80, 200, 4] : Pixel).length = 3 ∨ ([7, 80, 200, 4] : Pixel).length = 4) ∧
    (1 : ℕ) < 3 ∧
    (color_correct 2.2 [7, 80, 200, 4]).getD 1 0
      = uint8cast (255 * ((([7, 80, 200, 4] : Pixel).getD 1 0 : ℝ) / 255) ^ (1 / (2.2 : ℝ))) :=
  ⟨Or.inr rfl, by omega,
    C1_color_correct_formula 2.2 [7, 80, 200, 4] (Or.inr rfl) 1 (by omega)⟩

/-- C8: gamma correction leaves the alpha channel unchanged: for a 4-channel
buffer, channel 3 of every pixel of `_color_correct`'s output equals channel 3
of the corresponding input pixel. -/
theorem C8_alpha_unchanged (g : ℝ) (b : Buffer)
    (hb : ∀ row ∈ b, ∀ p ∈ row, p.length = 4) (i j : ℕ)
    (hi : i < b.length) (hj : j < (b.getD i []).length) :
    (((color_correct_buffer g b).getD i []).getD j []).getD 3 0
      = ((b.getD i []).getD j []).getD 3 0 := by
  have hrow : b.getD i [] ∈ b := by
    rw [List.getD_eq_getElem _ _ hi]; exact List.getElem_mem _
  have hpix : (b.getD i []).getD j [] ∈ b.getD i [] := by
    rw [List.getD_eq_getElem _ _ hj]; exact List.getElem_mem _
  have hp4 : ((b.getD i []).getD j []).length = 4 := hb _ hrow _ hpix
  have h1 : (color_correct_buffer g b).getD i []
      = (b.getD i []).map (color_correct g) := by
    unfold color_correct_buffer
    exact getD_map_row _ _ _ hi
  rw [h1, getD_map_pix _ _ _ hj, color_correct_alpha _ _ hp4]

/-- For a positive coefficient and an in-range input the pre-cast value
`255 * (v/255) ** (1/g)` stays in `[0, 255]`, so its floor is at most 255. -/
theorem floor_gamma_le (g : ℝ) (hg : 0 < g) (v : ℕ) (hv : v ≤ 255) :
    ⌊(255 : ℝ) * ((v : ℝ) / 255) ^ (1 / g)⌋₊ ≤ 255 := by
  have hbase0 : (0 : ℝ) ≤ (v : ℝ) / 255 := by positivity
  have hbase1 : (v : ℝ) / 255 ≤ 1 := by
    rw [div_le_one (by norm_num)]
    exact_mod_cast hv
  have hexp : (0 : ℝ) ≤ 1 / g := by positivity
  have hpow : ((v : ℝ) / 255) ^ (1 / g) ≤ 1 :=
    Real.rpow_le_one hbase0 hbase1 hexp
  have hle : (255 : ℝ) * ((v : ℝ) / 255) ^ (1 / g) ≤ ((255 : ℕ) : ℝ) := by
    push_cast
    nlinarith [hpow]
  calc ⌊(255 : ℝ) * ((v : ℝ) / 255) ^ (1 / g)⌋₊
      ≤ ⌊((255 : ℕ) : ℝ)⌋₊ := Nat.floor_le_floor hle
    _ = 255 := Nat.floor_natCast 255

/-- C2 (counterexample): with the negative coefficient `g = -1` the gamma map
is not monotone: input channel 1 maps above input channel 2 (`1 ≤ 2` but the
corrected value of 1 exceeds that of 2). -/
theorem C2_counterexample :
    (1 : ℕ) ≤ 2 ∧ ¬ (colorCorrectChannel (-1) 1 ≤ colorCorrectChannel (-1) 2) := by
  have hexp : (1 : ℝ) / (-1) = ((-1 : ℤ) : ℝ) := by norm_num
  have h1 : colorCorrectChannel (-1) 1 = 1 := by
    unfold colorCorrectChannel uint8cast
    rw [hexp, Real.rpow_intCast]
    have : (255 : ℝ) * (((1 : ℕ) : ℝ) / 255) ^ (-1 : ℤ) = ((65025 : ℕ) : ℝ) := by
      push_cast
      norm_num
    rw [this, Nat.floor_natCast]
  have h2 : colorCorrectChannel (-1) 2 = 0 := by
    unfold colorCorrectChannel uint8cast
    rw [hexp, Real.rpow_intCast]
    have hfl : ⌊(255 : ℝ) * (((2 : ℕ) : ℝ) / 255) ^ (-1 : ℤ)⌋₊ = 32512 := by
      have hval : (255 : ℝ) * (((2 : ℕ) : ℝ) / 255) ^ (-1 : ℤ) = 65025 / 2 := by
        push_cast
        norm_num
      rw [hval]
      rw [Nat.floor_eq_iff (by norm_num)]
      norm_num
    rw [hfl]
  rw [h1, h2]
  omega

/-- C2 (amended): for every positive gamma coefficient, gamma correction of
uint8 channel values is monotone, and every output value is at most 255
(outputs are naturals, hence already at least 0). -/
theorem C2_gamma_monotone_bounded (g : ℝ) (hg : 0 < g) (v w : ℕ)
    (hvw : v ≤ w) (hw : w ≤ 255) :
    colorCorrectChannel g v ≤ colorCorrectChannel g w ∧
    colorCorrectChannel g v ≤ 255 ∧ colorCorrectChannel g w ≤ 255 := by
  have hv : v ≤ 255 := hvw.trans hw
  have hexp : (0 : ℝ) ≤ 1 / g := by positivity
  have hbase0 : (0 : ℝ) ≤ (v : ℝ) / 255 := by positivity
  have hbasevw : (v : ℝ) / 255 ≤ (w : ℝ) / 255 := by
    apply div_le_div_of_nonneg_right ?_ (by norm_num)
    · exact_mod_cast hvw
  have hpowle : ((v : ℝ) / 255) ^ (1 / g) ≤ ((w : ℝ) / 255) ^ (1 / g) :=
    Real.rpow_le_rpow hbase0 hbasevw hexp
  have hmulle : (255 : ℝ) * ((v : ℝ) / 255) ^ (1 / g)
      ≤ (255 : ℝ) * ((w : ℝ) / 255) ^ (1 / g) := by nlinarith [hpowle]
  have hfv : ⌊(255 : ℝ) * ((v : ℝ) / 255) ^ (1 / g)⌋₊ ≤ 255 := floor_gamma_le g hg v hv
  have hfw : ⌊(255 : ℝ) * ((w : ℝ) / 255) ^ (1 / g)⌋₊ ≤ 255 := floor_gamma_le g hg w hw
  have hmono : ⌊(255 : ℝ) * ((v : ℝ) / 255) ^ (1 / g)⌋₊
      ≤ ⌊(255 : ℝ) * ((w : ℝ) / 255) ^ (1 / g)⌋₊ := Nat.floor_le_floor hmulle
  unfold colorCorrectChannel uint8cast
  rw [Nat.mod_eq_of_lt (by omega), Nat.mod_eq_of_lt (by omega)]
  exact ⟨hmono, hfv, hfw⟩

theorem C2_gamma_monotone_bounded_witness :
    (0 : ℝ) < 2.2 ∧ (3 : ℕ) ≤ 5 ∧ (5 : ℕ) ≤ 255 ∧
    (colorCorrectChannel 2.2 3 ≤ colorCorrectChannel 2.2 5 ∧
      colorCorrectChannel 2.2 3 ≤ 255 ∧ colorCorrectChannel 2.2 5 ≤ 255) :=
  ⟨by norm_num, by omega, by omega,
    C2_gamma_monotone_bounded 2.2 (by norm_num) 3 5 (by omega) (by omega)⟩

/-- A concrete renderer state (as built by `__init__` for a 2×1 camera,
`mode='rgb'`, `origin='upper-left'`, no gamma), used by witnesses. -/
def sampleUL : OffScreenRenderer :=
  { shape := (2, 1), offscreenSize := (1, 2), origin := "upper-left",
    gamma_coeff := none, channels := 3,
    buffer := [[[0, 0, 0]], [[0, 0, 0]]] }

/-- C5: `render` flips the captured buffer exactly when `origin` is
`'upper-left'`, leaves the row order unchanged when it is `'lower-left'`,
and no other `origin` value survives construction. -/
theorem C5_flip_iff_upper_left (r : OffScreenRenderer) (c : Buffer)
    (hg : r.gamma_coeff = none) :
    (r.origin = "upper-left" → renderImage r c = flipud c) ∧
    (r.origin = "lower-left" → renderImage r c = c) ∧
    (∀ shape mode o g r', OffScreenRenderer.init shape mode o g = some r' →
      r'.origin = "upper-left" ∨ r'.origin = "lower-left") := by
  refine ⟨?_, ?_, ?_⟩
  · intro h
    simp [renderImage, flipStage, gammaStage, hg, h]
  · intro h
    simp [renderImage, flipStage, gammaStage, hg, h]
  · intro shape mode o g r' hr
    unfold OffScreenRenderer.init at hr
    split_ifs at hr with h1 h2
    all_goals
      simp only [Option.some.injEq] at hr
      subst hr
      simpa using h2

theorem C5_flip_iff_upper_left_witness :
    sampleUL.gamma_coeff = none ∧
    ((sampleUL.origin = "upper-left" →
        renderImage sampleUL [[[1, 2, 3]], [[4, 5, 6]]] = flipud [[[1, 2, 3]], [[4, 5, 6]]]) ∧
      (sampleUL.origin = "lower-left" → renderImage sampleUL [[[1, 2, 3]], [[4, 5, 6]]] = [[[1, 2, 3]], [[4, 5, 6]]]) ∧
      (∀ shape mode o g r', OffScreenRenderer.init shape mode o g = some r' →
        r'.origin = "upper-left" ∨ r'.origin = "lower-left")) :=
  ⟨rfl, C5_flip_iff_upper_left sampleUL [[[1, 2, 3]], [[4, 5, 6]]] rfl⟩

/-- C9: `render` applies gamma correction exactly when `gamma_coeff` is
truthy; `gamma_coeff = 0` disables it just like `None` does. -/
theorem C9_gamma_truthiness (r : OffScreenRenderer) (c : Buffer) :
    (¬ gammaTruthy r.gamma_coeff → renderImage r c = flipStage r c) ∧
    (∀ g, r.gamma_coeff = some g → g ≠ 0 →
      renderImage r c = color_correct_buffer g (flipStage r c)) ∧
    renderImage { r with gamma_coeff := some 0 } c
      = renderImage { r with gamma_coeff := none } c := by
  refine ⟨?_, ?_, ?_⟩
  · intro hng
    cases hgc : r.gamma_coeff with
    | none => simp [renderImage, gammaStage, hgc]
    | some g =>
      have hg0 : g = 0 := by
        by_contra h
        exact hng (by simp [gammaTruthy, hgc, h])
      simp [renderImage, gammaStage, hgc, hg0]
  · intro g hgc hg0
    simp [renderImage, gammaStage, hgc, hg0]
  · simp [renderImage, gammaStage, flipStage]

theorem C9_gamma_truthiness_witness :
    (¬ gammaTruthy sampleUL.gamma_coeff →
      renderImage sampleUL [[[1, 2, 3]]] = flipStage sampleUL [[[1, 2, 3]]]) ∧
    (∀ g, sampleUL.gamma_coeff = some g → g ≠ 0 →
      renderImage sampleUL [[[1, 2, 3]]]
        = color_correct_buffer g (flipStage sampleUL [[[1, 2, 3]]])) ∧
    renderImage { sampleUL with gamma_coeff := some 0 } [[[1, 2, 3]]]
      = renderImage { sampleUL with gamma_coeff := none } [[[1, 2, 3]]] :=
  C9_gamma_truthiness sampleUL [[[1, 2, 3]]]

/-- C7: each `render()` call binds the target, issues exactly one draw call,
performs exactly one texture-image fetch after the draw, and only then runs
the optional flip and, after it, the optional gamma correction; the image
transformation is the gamma stage composed after the flip stage. -/
theorem C7_render_step_order (r : OffScreenRenderer) (c : Buffer) :
    (renderTrace r).count RenderStep.drawView3d = 1 ∧
    (renderTrace r).count RenderStep.glGetTexImage = 1 ∧
    (renderTrace r).indexOf RenderStep.drawView3d
      < (renderTrace r).indexOf RenderStep.glGetTexImage ∧
    (RenderStep.flip ∈ renderTrace r →
      (renderTrace r).indexOf RenderStep.glGetTexImage
        < (renderTrace r).indexOf RenderStep.flip) ∧
    (RenderStep.gamma ∈ renderTrace r →
      (renderTrace r).indexOf RenderStep.glGetTexImage
        < (renderTrace r).indexOf RenderStep.gamma ∧
      (RenderStep.flip ∈ renderTrace r →
        (renderTrace r).indexOf RenderStep.flip
          < (renderTrace r).indexOf RenderStep.gamma)) ∧
    renderImage r c = gammaStage r (flipStage r c) := by
  unfold renderTrace
  split_ifs with h1 h2 <;>
    exact ⟨by decide, by decide, by decide, by decide, by decide, rfl⟩

theorem C7_render_step_order_witness :
    (renderTrace sampleUL).count RenderStep.drawView3d = 1 ∧
    (renderTrace sampleUL).count RenderStep.glGetTexImage = 1 ∧
    (renderTrace sampleUL).indexOf RenderStep.drawView3d
      < (renderTrace sampleUL).indexOf RenderStep.glGetTexImage ∧
    (RenderStep.flip ∈ renderTrace sampleUL →
      (renderTrace sampleUL).indexOf RenderStep.glGetTexImage
        < (renderTrace sampleUL).indexOf RenderStep.flip) ∧
    (RenderStep.gamma ∈ renderTrace sampleUL →
      (renderTrace sampleUL).indexOf RenderStep.glGetTexImage
        < (renderTrace sampleUL).indexOf RenderStep.gamma ∧
      (RenderStep.flip ∈ renderTrace sampleUL →
        (renderTrace sampleUL).indexOf RenderStep.flip
          < (renderTrace sampleUL).indexOf RenderStep.gamma)) ∧
    renderImage sampleUL [[[1, 2, 3]]]
      = gammaStage sampleUL (flipStage sampleUL [[[1, 2, 3]]]) :=
  C7_render_step_order sampleUL [[[1, 2, 3]]]

/-- `_color_correct` keeps the channel count of a 3- or 4-channel pixel. -/
theorem color_correct_length (g : ℝ) (p : Pixel)
    (hp : p.length = 3 ∨ p.length = 4) :
    (color_correct g p).length = p.length := by
  rcases hp with h | h <;>
    simp [color_correct, h, List.length_take]

theorem flipStage_shape (H W D : ℕ) (r : OffScreenRenderer) (b : Buffer)
    (hb : bufferShape H W D b) : bufferShape H W D (flipStage r b) := by
  unfold flipStage flipud
  obtain ⟨h1, h2⟩ := hb
  split_ifs
  · exact ⟨by simpa using h1, fun row hrow => h2 row (by simpa using hrow)⟩
  · exact ⟨h1, h2⟩

theorem color_correct_buffer_shape (g : ℝ) (H W D : ℕ) (hD : D = 3 ∨ D = 4)
    (b : Buffer) (hb : bufferShape H W D b) :
    bufferShape H W D (color_correct_buffer g b) := by
  obtain ⟨h1, h2⟩ := hb
  refine ⟨by simpa [color_correct_buffer] using h1, ?_⟩
  intro row hrow
  simp only [color_correct_buffer, List.mem_map] at hrow
  obtain ⟨row0, hrow0, rfl⟩ := hrow
  obtain ⟨hlen, hpix⟩ := h2 row0 hrow0
  refine ⟨by simpa using hlen, ?_⟩
  intro p hp
  simp only [List.mem_map] at hp
  obtain ⟨p0, hp0, rfl⟩ := hp
  have hp0D : p0.length = D := hpix p0 hp0
  rw [color_correct_length g p0 (by omega), hp0D]

theorem gammaStage_shape (H W D : ℕ) (hD : D = 3 ∨ D = 4)
    (r : OffScreenRenderer) (b : Buffer) (hb : bufferShape H W D b) :
    bufferShape H W D (gammaStage r b) := by
  unfold gammaStage
  cases r.gamma_coeff with
  | none => exact hb
  | some g =>
    show bufferShape H W D (if g = 0 then b else color_correct_buffer g b)
    split_ifs
    · exact hb
    · exact color_correct_buffer_shape g H W D hD b hb

theorem renderImage_shape (H W D : ℕ) (hD : D = 3 ∨ D = 4)
    (r : OffScreenRenderer) (c : Buffer) (hc : bufferShape H W D c) :
    bufferShape H W D (renderImage r c) :=
  gammaStage_shape H W D hD r _ (flipStage_shape H W D r c hc)

theorem bufferShape_replicate (H W D : ℕ) :
    bufferShape H W D
      (List.replicate H (List.replicate W (List.replicate D 0))) := by
  refine ⟨by simp, ?_⟩
  intro row hrow
  rw [List.eq_of_mem_replicate hrow]
  refine ⟨by simp, ?_⟩
  intro p hp
  rw [List.eq_of_mem_replicate hp]
  simp

/-- C6: for a camera of shape `(H, W)`, `__init__` sizes the `GPUOffScreen`
as width `W` × height `H` and allocates an `(H, W, D)` uint8 buffer with
`D = 4` for `mode='rgba'` and `D = 3` for `mode='rgb'`; `render` returns an
array of that same `H×W×D` shape. -/
theorem C6_sizes (H W : ℕ) (mode origin : String) (g : Option ℝ)
    (r : OffScreenRenderer)
    (h : OffScreenRenderer.init (H, W) mode origin g = some r) :
    r.offscreenSize = (W, H) ∧
    r.channels = (if mode = "rgba" then 4 else 3) ∧
    bufferShape H W r.channels r.buffer ∧
    (∀ c, bufferShape H W r.channels c →
      bufferShape H W r.channels (renderImage r c)) := by
  unfold OffScreenRenderer.init at h
  split_ifs at h with h1 h2 h3
  all_goals
    simp only [Option.some.injEq] at h
    subst h
  · exact ⟨rfl, by rw [if_pos h3], bufferShape_replicate H W 4,
      fun c hc => renderImage_shape H W 4 (Or.inr rfl) _ c hc⟩
  · exact ⟨rfl, by rw [if_neg h3], bufferShape_replicate H W 3,
      fun c hc => renderImage_shape H W 3 (Or.inl rfl) _ c hc⟩

/-- The renderer built by
`OffScreenRenderer.init (2, 1) "rgb" "lower-left" none`. -/
def sampleLL : OffScreenRenderer :=
  { shape := (2, 1), offscreenSize := (1, 2), origin := "lower-left",
    gamma_coeff := none, channels := 3,
    buffer := [[[0, 0, 0]], [[0, 0, 0]]] }

theorem C6_sizes_witness :
    OffScreenRenderer.init (2, 1) "rgb" "lower-left" none = some sampleLL ∧
    (sampleLL.offscreenSize = (1, 2) ∧
      sampleLL.channels = (if ("rgb" : String) = "rgba" then 4 else 3) ∧
      bufferShape 2 1 sampleLL.channels sampleLL.buffer ∧
      (∀ c, bufferShape 2 1 sampleLL.channels c →
        bufferShape 2 1 sampleLL.channels (renderImage sampleLL c))) :=
  ⟨rfl, C6_sizes 2 1 "rgb" "lower-left" none sampleLL rfl⟩

theorem heap_alloc_read_lt (h : Heap) (x : RArr) (a : ℕ)
    (ha : a < h.cells.length) : (h.alloc x).1.read a = h.read a := by
  simp only [Heap.alloc, Heap.read]
  exact List.getD_append _ _ _ _ ha

theorem heap_alloc_len (h : Heap) (x : RArr) :
    (h.alloc x).1.cells.length = h.cells.length + 1 := by
  simp [Heap.alloc]

theorem heap_alloc_addr (h : Heap) (x : RArr) :
    (h.alloc x).2 = h.cells.length := rfl

/-- C10: `_color_correct` only allocates: every array that existed before the
call (in particular the argument buffer, hence `self.buffer`) is unchanged in
the resulting heap, and the returned array lives at a fresh address. -/
theorem C10_no_mutation (h : Heap) (a : ℕ) (g : ℝ) :
    (∀ a', a' < h.cells.length →
      (color_correct_heap h a g).1.read a' = h.read a') ∧
    h.cells.length ≤ (color_correct_heap h a g).2 := by
  simp only [color_correct_heap]
  set buf := h.read a with hbuf
  set p1 := h.alloc (slice3 buf) with hp1
  set p2 := p1.1.alloc (divEach (p1.1.read p1.2)) with hp2
  set p3 := p2.1.alloc (powEach g (p2.1.read p2.2)) with hp3
  set p4 := p3.1.alloc (mulEach (p3.1.read p3.2)) with hp4
  set p5 := p4.1.alloc (uint8Each (p4.1.read p4.2)) with hp5
  have l1 : p1.1.cells.length = h.cells.length + 1 := by
    rw [hp1]; exact heap_alloc_len _ _
  have l2 : p2.1.cells.length = h.cells.length + 2 := by
    rw [hp2, heap_alloc_len, l1]
  have l3 : p3.1.cells.length = h.cells.length + 3 := by
    rw [hp3, heap_alloc_len, l2]
  have l4 : p4.1.cells.length = h.cells.length + 4 := by
    rw [hp4, heap_alloc_len, l3]
  have l5 : p5.1.cells.length = h.cells.length + 5 := by
    rw [hp5, heap_alloc_len, l4]
  have pres : ∀ a', a' < h.cells.length → p5.1.read a' = h.read a' := by
    intro a' ha'
    rw [hp5, heap_alloc_read_lt _ _ _ (by omega)]
    rw [hp4, heap_alloc_read_lt _ _ _ (by omega)]
    rw [hp3, heap_alloc_read_lt _ _ _ (by omega)]
    rw [hp2, heap_alloc_read_lt _ _ _ (by omega)]
    rw [hp1, heap_alloc_read_lt _ _ _ ha']
  split_ifs with h4
  · constructor
    · intro a' ha'
      rw [heap_alloc_read_lt _ _ _ (by omega)]
      exact pres a' ha'
    · rw [heap_alloc_addr]
      omega
  · constructor
    · exact pres
    · rw [hp5, heap_alloc_addr]
      omega

theorem C10_no_mutation_witness :
    (∀ a', a' < (⟨[[[[1, 2, 3, 4]]]]⟩ : Heap).cells.length →
      (color_correct_heap ⟨[[[[1, 2, 3, 4]]]]⟩ 0 2).1.read a'
        = (⟨[[[[1, 2, 3, 4]]]]⟩ : Heap).read a') ∧
    (⟨[[[[1, 2, 3, 4]]]]⟩ : Heap).cells.length
      ≤ (color_correct_heap ⟨[[[[1, 2, 3, 4]]]]⟩ 0 2).2 :=
  C10_no_mutation ⟨[[[[1, 2, 3, 4]]]]⟩ 0 2

theorem C8_alpha_unchanged_witness :
    (∀ row ∈ ([[[1, 2, 3, 9]]] : Buffer), ∀ p ∈ row, p.length = 4) ∧
    (((color_correct_buffer 2.2 [[[1, 2, 3, 9]]]).getD 0 []).getD 0 []).getD 3 0
      = ((([[[1, 2, 3, 9]]] : Buffer).getD 0 []).getD 0 []).getD 3 0 :=
  ⟨by decide,
    C8_alpha_unchanged 2.2 [[[1, 2, 3, 9]]] (by decide) 0 0 (by decide) (by decide)⟩
